import Mathlib

/-!
Verification of the intent-resolution, command-routing and device-state
synchronization engine of an eldercare smart-home backend.

The Lean definitions below are a shallow embedding of the Python source:

* `detect_intent_from_keywords` embeds
  `api/services/intent_database_service.py`, `IntentDatabaseService.detect_intent_from_keywords`;
* `find_best_action` and `find_device_by_keyword` embed the corresponding
  methods of `api/services/device_service.py`, `DeviceService`;
* `generate_action_parameters` embeds
  `IntentDatabaseService.generate_action_parameters`;
* `publish_message`, `process_arduino_message` and `on_message` embed the
  corresponding methods of `api/services/mqtt_service.py`, `MQTTService`;
* `get_current_state` (over a small explicit heap of nested dictionaries)
  embeds `MQTTService.get_current_state`.

Database-backed catalogs (SQL result sets) are embedded as lists of row
records, in result-set order.  Python `float` values are embedded as `ℚ`.
-/

/- ### String utilities

Python string containment (`needle in hay`) and lower-casing, over the
character data of the strings. -/

/-- Character data of a string after Python `str.lower()` (ASCII case fold,
which covers every string the engine handles). -/
def lowerChars (s : String) : List Char :=
  s.data.map Char.toLower

/-- Leading-segment test: does the second list start with the first one. -/
def startsList : List Char → List Char → Bool
  | [], _ => true
  | _ :: _, [] => false
  | a :: s, b :: t => if a = b then startsList s t else false

/-- Containment of `needle` in `hay` as a contiguous sublist, computed by
scanning every suffix of `hay`; embeds Python `needle in hay`. -/
def containsSub (needle : List Char) : List Char → Bool
  | [] => needle.isEmpty
  | c :: t => startsList needle (c :: t) || containsSub needle t

/-- Case-insensitive containment, embedding the pervasive Python idiom
`needle.lower() in hay.lower()`. -/
def strIn (needle hay : String) : Bool :=
  containsSub (lowerChars needle) (lowerChars hay)

theorem startsList_iff (n h : List Char) :
    startsList n h = true ↔ ∃ t, n ++ t = h := by
  induction n generalizing h with
  | nil => simp [startsList]
  | cons a s ih =>
    cases h with
    | nil => simp [startsList]
    | cons b t =>
      by_cases hab : a = b
      · subst hab
        rw [startsList, if_pos rfl, ih]
        constructor
        · rintro ⟨u, rfl⟩
          exact ⟨u, rfl⟩
        · rintro ⟨u, hu⟩
          rw [List.cons_append, List.cons.injEq] at hu
          exact ⟨u, hu.2⟩
      · rw [startsList, if_neg hab]
        constructor
        · intro hcontra
          exact absurd hcontra Bool.false_ne_true
        · rintro ⟨u, hu⟩
          rw [List.cons_append, List.cons.injEq] at hu
          exact absurd hu.1 hab

theorem containsSub_correct (needle hay : List Char) :
    containsSub needle hay = true ↔ ∃ pre post, pre ++ needle ++ post = hay := by
  induction hay with
  | nil =>
    simp only [containsSub, List.isEmpty_iff]
    constructor
    · rintro rfl
      exact ⟨[], [], rfl⟩
    · rintro ⟨pre, post, h⟩
      exact (List.append_eq_nil.mp (List.append_eq_nil.mp h).1).2
  | cons c t ih =>
    simp only [containsSub, Bool.or_eq_true, ih]
    constructor
    · rintro (h | ⟨pre, post, h⟩)
      · rcases (startsList_iff needle (c :: t)).mp h with ⟨post, hp⟩
        exact ⟨[], post, by simpa using hp⟩
      · exact ⟨c :: pre, post, by simp [h]⟩
    · rintro ⟨pre, post, h⟩
      cases pre with
      | nil =>
        left
        exact (startsList_iff needle (c :: t)).mpr ⟨post, by simpa using h⟩
      | cons c2 pre =>
        right
        rw [List.cons_append, List.cons_append, List.cons.injEq] at h
        exact ⟨pre, post, h.2⟩

/- ### Intent Classifier (C2, C10)

Embedding of `IntentDatabaseService.detect_intent_from_keywords`.  The SQL
result set (active intents joined with their keywords, ordered by weight
descending) is embedded as a list of `KeywordRow`s in result-set order. -/

/-- One row of the intent/keyword join fetched by
`detect_intent_from_keywords` (columns of the SELECT, in order). -/
structure KeywordRow where
  intentId : Nat
  intentName : String
  description : String
  category : String
  threshold : ℚ
  keyword : String
  weight : ℚ
deriving Repr, DecidableEq

/-- Add `w` to the score bound to `name`, inserting `name` at the end when
absent; embeds the Python dict update
`intent_scores[intent_name] = intent_scores.get(intent_name, 0) + weight`
(association list in dict insertion order). -/
def addScore : List (String × ℚ) → String → ℚ → List (String × ℚ)
  | [], name, w => [(name, w)]
  | (n, v) :: t, name, w =>
    if n = name then (n, v + w) :: t else (n, v) :: addScore t name w

/-- Accumulated per-intent scores over the rows whose keyword occurs in the
message; embeds the score-building loop of `detect_intent_from_keywords`. -/
def intentScores (rows : List KeywordRow) (message : String) : List (String × ℚ) :=
  rows.foldl
    (fun acc r => if strIn r.keyword message then addScore acc r.intentName r.weight else acc)
    []

/-- Left-to-right maximum keeping the earliest maximal entry; embeds Python
`max(intent_scores.keys(), key=intent_scores.get)`. -/
def pickBestAux (cur : String × ℚ) : List (String × ℚ) → String × ℚ
  | [] => cur
  | p :: t => pickBestAux (if p.2 > cur.2 then p else cur) t

/-- Best-scoring intent of a score list (`none` on the empty list). -/
def pickBest : List (String × ℚ) → Option (String × ℚ)
  | [] => none
  | p :: t => some (pickBestAux p t)

/-- First catalog row of a given intent; embeds the `intent_info` dict, which
keeps the first row seen for each intent name. -/
def lookupRow (rows : List KeywordRow) (name : String) : Option KeywordRow :=
  rows.find? (fun r => r.intentName = name)

/-- Confidence threshold recorded for an intent (`intent_info[best]['threshold']`). -/
def rowThreshold (rows : List KeywordRow) (name : String) : ℚ :=
  match lookupRow rows name with
  | some r => r.threshold
  | none => 0

/-- Category recorded for an intent. -/
def rowCategory (rows : List KeywordRow) (name : String) : String :=
  match lookupRow rows name with
  | some r => r.category
  | none => ""

/-- Description recorded for an intent. -/
def rowDescription (rows : List KeywordRow) (name : String) : String :=
  match lookupRow rows name with
  | some r => r.description
  | none => ""

/-- Result dictionary returned by `detect_intent_from_keywords`. -/
structure IntentResult where
  intent : String
  confidence : ℚ
  category : String
  description : String
  matched_keywords : List String
deriving Repr, DecidableEq

/-- Embedding of `IntentDatabaseService.detect_intent_from_keywords`:
score every matching keyword row, pick the best-scoring intent, normalize
its score by 5.0 clamped to 1, compare against
`max(confidence_threshold, intent threshold)`. -/
def detect_intent_from_keywords (rows : List KeywordRow) (message : String)
    (confidence_threshold : ℚ) : Option IntentResult :=
  let scores := intentScores rows message
  match pickBest scores with
  | none => none
  | some best =>
    let confidence := min (best.2 / 5) 1
    if confidence < max confidence_threshold (rowThreshold rows best.1) then none
    else
      some
        { intent := best.1
          confidence := confidence
          category := rowCategory rows best.1
          description := rowDescription rows best.1
          matched_keywords := (scores.filter (fun p => 0 < p.2)).map (fun p => p.1) }

theorem addScore_ne_nil (l : List (String × ℚ)) (name : String) (w : ℚ) :
    addScore l name w ≠ [] := by
  cases l with
  | nil => simp [addScore]
  | cons p t =>
    cases p with
    | mk n v =>
      by_cases h : n = name <;> simp [addScore, h]

theorem intentScores_foldl_eq_nil (rows : List KeywordRow) (message : String)
    (acc : List (String × ℚ)) :
    rows.foldl
        (fun acc r =>
          if strIn r.keyword message then addScore acc r.intentName r.weight else acc)
        acc = [] ↔
      acc = [] ∧ ∀ r ∈ rows, strIn r.keyword message = false := by
  induction rows generalizing acc with
  | nil => simp
  | cons r t ih =>
    by_cases h : strIn r.keyword message = true
    · rw [List.foldl_cons, if_pos h, ih]
      constructor
      · rintro ⟨habs, -⟩
        exact absurd habs (addScore_ne_nil acc r.intentName r.weight)
      · rintro ⟨-, hall⟩
        have h2 := hall r (List.mem_cons_self r t)
        simp [h] at h2
    · have hf : strIn r.keyword message = false := by simpa using h
      rw [List.foldl_cons, if_neg h, ih]
      constructor
      · rintro ⟨ha, hall⟩
        refine ⟨ha, fun x hx => ?_⟩
        rcases List.mem_cons.mp hx with rfl | hx
        · exact hf
        · exact hall x hx
      · rintro ⟨ha, hall⟩
        exact ⟨ha, fun x hx => hall x (List.mem_cons_of_mem _ hx)⟩

theorem intentScores_eq_nil (rows : List KeywordRow) (message : String) :
    intentScores rows message = [] ↔ ∀ r ∈ rows, strIn r.keyword message = false := by
  simpa using intentScores_foldl_eq_nil rows message []

theorem pickBestAux_mem (cur : String × ℚ) (l : List (String × ℚ)) :
    pickBestAux cur l = cur ∨ pickBestAux cur l ∈ l := by
  induction l generalizing cur with
  | nil => exact Or.inl rfl
  | cons p t ih =>
    simp only [pickBestAux]
    by_cases h : p.2 > cur.2
    · rw [if_pos h]
      rcases ih p with h' | h'
      · exact Or.inr (by rw [h']; exact List.mem_cons_self p t)
      · exact Or.inr (List.mem_cons_of_mem _ h')
    · rw [if_neg h]
      rcases ih cur with h' | h'
      · exact Or.inl h'
      · exact Or.inr (List.mem_cons_of_mem _ h')

theorem pickBestAux_le (cur : String × ℚ) (l : List (String × ℚ)) :
    cur.2 ≤ (pickBestAux cur l).2 ∧ ∀ q ∈ l, q.2 ≤ (pickBestAux cur l).2 := by
  induction l generalizing cur with
  | nil => simp [pickBestAux]
  | cons p t ih =>
    simp only [pickBestAux]
    by_cases h : p.2 > cur.2
    · rw [if_pos h]
      rcases ih p with ⟨h1, h2⟩
      refine ⟨le_trans (le_of_lt h) h1, fun q hq => ?_⟩
      rcases List.mem_cons.mp hq with rfl | hq
      · exact h1
      · exact h2 q hq
    · rw [if_neg h]
      rcases ih cur with ⟨h1, h2⟩
      refine ⟨h1, fun q hq => ?_⟩
      rcases List.mem_cons.mp hq with rfl | hq
      · exact le_trans (not_lt.mp h) h1
      · exact h2 q hq

theorem pickBest_spec (l : List (String × ℚ)) (p : String × ℚ) (h : pickBest l = some p) :
    p ∈ l ∧ ∀ q ∈ l, q.2 ≤ p.2 := by
  cases l with
  | nil => cases h
  | cons a t =>
    simp only [pickBest, Option.some_inj] at h
    subst h
    constructor
    · rcases pickBestAux_mem a t with h' | h'
      · rw [h']
        exact List.mem_cons_self a t
      · exact List.mem_cons_of_mem _ h'
    · intro q hq
      rcases List.mem_cons.mp hq with rfl | hq
      · exact (pickBestAux_le q t).1
      · exact (pickBestAux_le a t).2 q hq

theorem pickBest_eq_none (l : List (String × ℚ)) :
    pickBest l = none ↔ l = [] := by
  cases l <;> simp [pickBest]

/-- C2: resolution behavior of the classifier.  The selected intent carries
the highest raw accumulated score, its confidence is the score normalized by
5.0 and clamped to 1, and the classifier returns none exactly when either no
active keyword occurs in the message or the normalized confidence of the
best-scoring intent is below `max confidence_threshold (its own threshold)`. -/
theorem detect_intent_spec (rows : List KeywordRow) (message : String) (ct : ℚ) :
    (detect_intent_from_keywords rows message ct = none ↔
        (∀ r ∈ rows, strIn r.keyword message = false) ∨
        ∃ p, pickBest (intentScores rows message) = some p ∧
          min (p.2 / 5) 1 < max ct (rowThreshold rows p.1)) ∧
    ∀ res, detect_intent_from_keywords rows message ct = some res →
      ∃ v, (res.intent, v) ∈ intentScores rows message ∧
        (∀ q ∈ intentScores rows message, q.2 ≤ v) ∧
        res.confidence = min (v / 5) 1 := by
  constructor
  · cases hpb : pickBest (intentScores rows message) with
    | none =>
      constructor
      · intro _
        exact Or.inl ((intentScores_eq_nil rows message).mp ((pickBest_eq_none _).mp hpb))
      · intro _
        simp [detect_intent_from_keywords, hpb]
    | some p =>
      simp only [detect_intent_from_keywords, hpb]
      by_cases hlt : min (p.2 / 5) 1 < max ct (rowThreshold rows p.1)
      · rw [if_pos hlt]
        exact ⟨fun _ => Or.inr ⟨p, rfl, hlt⟩, fun _ => rfl⟩
      · rw [if_neg hlt]
        constructor
        · intro hcontra
          cases hcontra
        · rintro (hall | ⟨p2, hp2, hlt2⟩)
          · have hnil := (intentScores_eq_nil rows message).mpr hall
            rw [hnil] at hpb
            cases hpb
          · rw [Option.some_inj] at hp2
            subst hp2
            exact absurd hlt2 hlt
  · intro res hres
    cases hpb : pickBest (intentScores rows message) with
    | none => simp [detect_intent_from_keywords, hpb] at hres
    | some p =>
      simp only [detect_intent_from_keywords, hpb] at hres
      by_cases hlt : min (p.2 / 5) 1 < max ct (rowThreshold rows p.1)
      · rw [if_pos hlt] at hres
        cases hres
      · rw [if_neg hlt, Option.some_inj] at hres
        subst hres
        rcases pickBest_spec _ p hpb with ⟨hmem, hmax⟩
        exact ⟨p.2, by simpa using hmem, hmax, rfl⟩

/-- Demonstration catalog: an intent with two weighted keywords together with
a second intent sharing one keyword. -/
def demoRows : List KeywordRow :=
  [⟨1, "emergency", "Emergency assistance", "emergency", 4/5, "emergency", 3⟩,
   ⟨1, "emergency", "Emergency assistance", "emergency", 4/5, "help", 2⟩,
   ⟨2, "companionship", "Keep company", "social", 1/2, "help", 1⟩]

/-- Demonstration message matching all three demonstration keyword rows. -/
def demoMsg : String := "I need emergency help"

theorem demoRows_eval :
    detect_intent_from_keywords demoRows demoMsg (7/10) =
      some
        { intent := "emergency", confidence := 1, category := "emergency",
          description := "Emergency assistance",
          matched_keywords := ["emergency", "companionship"] } := by
  have h1 : strIn "emergency" demoMsg = true := by decide
  have h2 : strIn "help" demoMsg = true := by decide
  have hs : intentScores demoRows demoMsg = [("emergency", 3 + 2), ("companionship", 1)] := by
    simp [intentScores, demoRows, List.foldl, h1, h2, addScore]
  have hadd : (3 : ℚ) + 2 = 5 := by norm_num
  rw [hadd] at hs
  have hpb : pickBest (intentScores demoRows demoMsg) = some ("emergency", 5) := by
    rw [hs]
    simp only [pickBest, pickBestAux]
    norm_num
  simp only [detect_intent_from_keywords, hpb]
  rw [if_neg (by norm_num [rowThreshold, lookupRow, demoRows, List.find?])]
  rw [hs]
  simp only [List.filter, List.map]
  norm_num [rowCategory, rowDescription, lookupRow, demoRows, List.find?]

/-- C2 witness: the classifier applied to the demonstration catalog. -/
theorem detect_intent_spec_witness :
    ∃ v, (("emergency", v) ∈ intentScores demoRows demoMsg ∧
      (∀ q ∈ intentScores demoRows demoMsg, q.2 ≤ v) ∧
      (1 : ℚ) = min (v / 5) 1) := by
  have h := (detect_intent_spec demoRows demoMsg (7/10)).2
      { intent := "emergency", confidence := 1, category := "emergency",
        description := "Emergency assistance",
        matched_keywords := ["emergency", "companionship"] }
      demoRows_eval
  simpa using h

theorem addScore_mem (l : List (String × ℚ)) (name : String) (w : ℚ) :
    ∀ q ∈ addScore l name w, q.1 = name ∨ q ∈ l := by
  induction l with
  | nil =>
    intro q hq
    simp only [addScore, List.mem_singleton] at hq
    subst hq
    exact Or.inl rfl
  | cons a s ih =>
    obtain ⟨n, v⟩ := a
    intro q hq
    by_cases he : n = name
    · rw [addScore, if_pos he] at hq
      rcases List.mem_cons.mp hq with rfl | hq
      · exact Or.inl he
      · exact Or.inr (List.mem_cons_of_mem _ hq)
    · rw [addScore, if_neg he] at hq
      rcases List.mem_cons.mp hq with rfl | hq
      · exact Or.inr (List.mem_cons_self _ _)
      · rcases ih q hq with h' | h'
        · exact Or.inl h'
        · exact Or.inr (List.mem_cons_of_mem _ h')

theorem intentScores_names (rows : List KeywordRow) (message : String) :
    ∀ p ∈ intentScores rows message, ∃ r ∈ rows, r.intentName = p.1 := by
  have key : ∀ (l : List KeywordRow) (acc : List (String × ℚ)),
      (∀ p ∈ acc, ∃ r ∈ rows, r.intentName = p.1) →
      (∀ r ∈ l, r ∈ rows) →
      ∀ p ∈ l.foldl
          (fun acc r =>
            if strIn r.keyword message then addScore acc r.intentName r.weight else acc)
          acc, ∃ r ∈ rows, r.intentName = p.1 := by
    intro l
    induction l with
    | nil => intro acc hacc _ p hp; exact hacc p hp
    | cons r t ih =>
      intro acc hacc hsub p hp
      rw [List.foldl_cons] at hp
      by_cases h : strIn r.keyword message = true
      · rw [if_pos h] at hp
        refine ih (addScore acc r.intentName r.weight) ?_
          (fun x hx => hsub x (List.mem_cons_of_mem _ hx)) p hp
        intro q hq
        rcases addScore_mem acc r.intentName r.weight q hq with h' | h'
        · exact ⟨r, hsub r (List.mem_cons_self r t), h'.symm⟩
        · exact hacc q h'
      · rw [if_neg h] at hp
        exact ih acc hacc (fun x hx => hsub x (List.mem_cons_of_mem _ hx)) p hp
  intro p hp
  exact key rows [] (fun q hq => absurd hq (List.not_mem_nil q)) (fun r hr => hr) p hp

/-- C10: whenever the classifier returns a result, `matched_keywords` holds
exactly the names of the intents with a positive accumulated score on this
message (which are intent names from the catalog, not keyword strings). -/
theorem matched_keywords_spec (rows : List KeywordRow) (message : String) (ct : ℚ)
    (res : IntentResult) (h : detect_intent_from_keywords rows message ct = some res) :
    (∀ s, s ∈ res.matched_keywords ↔ ∃ v, (s, v) ∈ intentScores rows message ∧ 0 < v) ∧
    ∀ s ∈ res.matched_keywords, ∃ r ∈ rows, r.intentName = s := by
  have hmk : res.matched_keywords =
      ((intentScores rows message).filter (fun p => 0 < p.2)).map (fun p => p.1) := by
    cases hpb : pickBest (intentScores rows message) with
    | none => simp [detect_intent_from_keywords, hpb] at h
    | some p =>
      simp only [detect_intent_from_keywords, hpb] at h
      by_cases hlt : min (p.2 / 5) 1 < max ct (rowThreshold rows p.1)
      · rw [if_pos hlt] at h
        cases h
      · rw [if_neg hlt, Option.some_inj] at h
        subst h
        rfl
  constructor
  · intro s
    rw [hmk]
    constructor
    · intro hs
      rcases List.mem_map.mp hs with ⟨p, hp, rfl⟩
      rcases List.mem_filter.mp hp with ⟨hp1, hp2⟩
      exact ⟨p.2, by simpa using hp1, by simpa using hp2⟩
    · rintro ⟨v, hv, hpos⟩
      exact List.mem_map.mpr ⟨(s, v), List.mem_filter.mpr ⟨hv, by simpa using hpos⟩, rfl⟩
  · intro s hs
    rw [hmk] at hs
    rcases List.mem_map.mp hs with ⟨p, hp, rfl⟩
    exact intentScores_names rows message p (List.mem_filter.mp hp).1

/-- C10 witness: on the demonstration catalog the non-selected intent
`companionship` scored positively, and indeed appears in `matched_keywords`. -/
theorem matched_keywords_spec_witness :
    ∃ v, ("companionship", v) ∈ intentScores demoRows demoMsg ∧ 0 < v := by
  have h := (matched_keywords_spec demoRows demoMsg (7/10)
      { intent := "emergency", confidence := 1, category := "emergency",
        description := "Emergency assistance",
        matched_keywords := ["emergency", "companionship"] }
      demoRows_eval).1 "companionship"
  exact h.mp (by simp)

/- ### Device Matcher and Action Resolver (C3, C4)

Embedding of `DeviceService.find_best_action` and
`DeviceService.find_device_by_keyword`. -/

/-- One action row of a device (`device_actions` table). -/
structure DeviceAction where
  action_name : String
  mqtt_payload : String
deriving Repr, DecidableEq

/-- The fixed synonym table (`action_keywords`) of `find_best_action`. -/
def action_keywords : List (String × List String) :=
  [("turn_on", ["on", "turn on", "switch on", "start", "activate"]),
   ("turn_off", ["off", "turn off", "switch off", "stop", "deactivate"]),
   ("dim", ["dim", "lower", "reduce brightness"]),
   ("brighten", ["bright", "brighten", "increase brightness"]),
   ("set_temperature", ["temperature", "temp", "degrees"]),
   ("volume_up", ["volume up", "louder", "increase volume"]),
   ("volume_down", ["volume down", "quieter", "decrease volume"]),
   ("lock", ["lock"]),
   ("unlock", ["unlock"]),
   ("arm", ["arm", "activate security"]),
   ("disarm", ["disarm", "deactivate security"])]

/-- Direct pass: the action name occurs (case-insensitively) in the text. -/
def directNameMatch (a : DeviceAction) (text : String) : Bool :=
  strIn a.action_name text

/-- Synonym pass: some keyword of the action's synonym group occurs in the
text (actions without a synonym group never match this pass). -/
def synonymMatch (a : DeviceAction) (text : String) : Bool :=
  match action_keywords.find? (fun g => g.1 = a.action_name) with
  | some g => g.2.any (fun kw => strIn kw text)
  | none => false

/-- Embedding of `DeviceService.find_best_action`, applied to the action list
fetched by `get_device_actions` (rows ordered by `action_name`): first action
whose name occurs in the text, else first action triggered through the
synonym table, else the first listed action, else none. -/
def find_best_action (actions : List DeviceAction) (text : String) : Option DeviceAction :=
  match actions.find? (fun a => directNameMatch a text) with
  | some a => some a
  | none =>
    match actions.find? (fun a => synonymMatch a text) with
    | some a => some a
    | none => actions.head?

/-- C3: `find_best_action` resolves in the exact order direct name match,
then synonym table, then first listed action; it is none only on an empty
action list; and on actions turn_off/turn_on with text
"please switch on the lamp" it returns turn_on through the synonym pass. -/
theorem find_best_action_spec :
    (∀ actions text a, actions.find? (fun x => directNameMatch x text) = some a →
        find_best_action actions text = some a) ∧
    (∀ actions text a, actions.find? (fun x => directNameMatch x text) = none →
        actions.find? (fun x => synonymMatch x text) = some a →
        find_best_action actions text = some a) ∧
    (∀ actions text, (∀ a ∈ actions, directNameMatch a text = false) →
        (∀ a ∈ actions, synonymMatch a text = false) →
        find_best_action actions text = actions.head?) ∧
    (∀ actions text, find_best_action actions text = none ↔ actions = []) ∧
    (find_best_action [⟨"turn_off", "OFF"⟩, ⟨"turn_on", "ON"⟩] "please switch on the lamp" =
        some ⟨"turn_on", "ON"⟩ ∧
      ([⟨"turn_off", "OFF"⟩, ⟨"turn_on", "ON"⟩] : List DeviceAction).find?
        (fun x => directNameMatch x "please switch on the lamp") = none) := by
  refine ⟨?_, ?_, ?_, ?_, by decide, by decide⟩
  · intro actions text a h
    simp [find_best_action, h]
  · intro actions text a h1 h2
    simp [find_best_action, h1, h2]
  · intro actions text h1 h2
    have e1 : actions.find? (fun x => directNameMatch x text) = none :=
      List.find?_eq_none.mpr (fun a ha => by simp [h1 a ha])
    have e2 : actions.find? (fun x => synonymMatch x text) = none :=
      List.find?_eq_none.mpr (fun a ha => by simp [h2 a ha])
    simp [find_best_action, e1, e2]
  · intro actions text
    constructor
    · intro h
      cases actions with
      | nil => rfl
      | cons a t =>
        exfalso
        cases hf : (a :: t).find? (fun x => directNameMatch x text) with
        | some b => simp [find_best_action, hf] at h
        | none =>
          cases hg : (a :: t).find? (fun x => synonymMatch x text) with
          | some b => simp [find_best_action, hf, hg] at h
          | none => simp [find_best_action, hf, hg] at h
    · rintro rfl
      rfl

/-- C3 witness: the synonym-path resolution of the concrete example, obtained
by applying the second resolution rule. -/
theorem find_best_action_spec_witness :
    find_best_action [⟨"turn_off", "OFF"⟩, ⟨"turn_on", "ON"⟩] "please switch on the lamp" =
      some ⟨"turn_on", "ON"⟩ :=
  find_best_action_spec.2.1 [⟨"turn_off", "OFF"⟩, ⟨"turn_on", "ON"⟩]
    "please switch on the lamp" ⟨"turn_on", "ON"⟩ (by decide) (by decide)

/-- A device row of the `devices` table (columns relevant to matching). -/
structure Device where
  id : Nat
  name : String
  is_active : Bool
deriving Repr, DecidableEq

/-- One row of the `devices JOIN device_keywords` result set used by
`find_device_by_keyword`: the device together with one of its keywords. -/
structure DeviceKeywordRow where
  device : Device
  keyword : String
  context : String
deriving Repr, DecidableEq

/-- Rows whose device is active and whose keyword occurs in the text; embeds
the WHERE clause
`d.is_active = 1 AND LOWER(?) LIKE '%' || LOWER(dk.keyword) || '%'`. -/
def matchingRows (catalog : List DeviceKeywordRow) (text : String) : List DeviceKeywordRow :=
  catalog.filter (fun r => r.device.is_active && strIn r.keyword text)

/-- Stable insertion used by `sortByLenDesc`: a row is placed before the
first row whose keyword is no longer than its own. -/
def insertByLen (r : DeviceKeywordRow) : List DeviceKeywordRow → List DeviceKeywordRow
  | [] => [r]
  | x :: t =>
    if x.keyword.length ≤ r.keyword.length then r :: x :: t else x :: insertByLen r t

/-- Stable sort by keyword length descending; embeds
`ORDER BY LENGTH(dk.keyword) DESC` with join order preserved on ties. -/
def sortByLenDesc : List DeviceKeywordRow → List DeviceKeywordRow
  | [] => []
  | r :: t => insertByLen r (sortByLenDesc t)

/-- De-duplication by device id keeping the first occurrence; embeds the
`seen_devices` loop of `find_device_by_keyword`. -/
def dedupByDeviceId : List DeviceKeywordRow → List Nat → List DeviceKeywordRow
  | [], _ => []
  | r :: t, seen =>
    if r.device.id ∈ seen then dedupByDeviceId t seen
    else r :: dedupByDeviceId t (r.device.id :: seen)

/-- Embedding of `DeviceService.find_device_by_keyword`: filter the
device/keyword join by active devices and keyword containment, order by
keyword length descending, de-duplicate by device id keeping the first
occurrence. -/
def find_device_by_keyword (catalog : List DeviceKeywordRow) (text : String) :
    List DeviceKeywordRow :=
  dedupByDeviceId (sortByLenDesc (matchingRows catalog text)) []

theorem insertByLen_perm (r : DeviceKeywordRow) (l : List DeviceKeywordRow) :
    (insertByLen r l).Perm (r :: l) := by
  induction l with
  | nil => exact List.Perm.refl _
  | cons x t ih =>
    by_cases h : x.keyword.length ≤ r.keyword.length
    · rw [insertByLen, if_pos h]
    · rw [insertByLen, if_neg h]
      exact (List.Perm.cons x ih).trans (List.Perm.swap r x t)

theorem insertByLen_pairwise (r : DeviceKeywordRow) (l : List DeviceKeywordRow)
    (h : l.Pairwise (fun a b => b.keyword.length ≤ a.keyword.length)) :
    (insertByLen r l).Pairwise (fun a b => b.keyword.length ≤ a.keyword.length) := by
  induction l with
  | nil => simp [insertByLen]
  | cons x t ih =>
    rcases List.pairwise_cons.mp h with ⟨hx, ht⟩
    by_cases hc : x.keyword.length ≤ r.keyword.length
    · rw [insertByLen, if_pos hc]
      refine List.pairwise_cons.mpr ⟨?_, h⟩
      intro y hy
      rcases List.mem_cons.mp hy with rfl | hy
      · exact hc
      · exact le_trans (hx y hy) hc
    · rw [insertByLen, if_neg hc]
      refine List.pairwise_cons.mpr ⟨?_, ih ht⟩
      intro y hy
      have hy2 : y ∈ r :: t := (insertByLen_perm r t).mem_iff.mp hy
      rcases List.mem_cons.mp hy2 with rfl | hy2
      · exact le_of_lt (not_le.mp hc)
      · exact hx y hy2

theorem sortByLenDesc_perm (l : List DeviceKeywordRow) : (sortByLenDesc l).Perm l := by
  induction l with
  | nil => exact List.Perm.refl _
  | cons r t ih => exact (insertByLen_perm r (sortByLenDesc t)).trans (List.Perm.cons r ih)

theorem sortByLenDesc_pairwise (l : List DeviceKeywordRow) :
    (sortByLenDesc l).Pairwise (fun a b => b.keyword.length ≤ a.keyword.length) := by
  induction l with
  | nil => simp [sortByLenDesc]
  | cons r t ih => exact insertByLen_pairwise r (sortByLenDesc t) ih

theorem dedupByDeviceId_sublist (l : List DeviceKeywordRow) (seen : List Nat) :
    (dedupByDeviceId l seen).Sublist l := by
  induction l generalizing seen with
  | nil => simp [dedupByDeviceId]
  | cons r t ih =>
    by_cases h : r.device.id ∈ seen
    · rw [dedupByDeviceId, if_pos h]
      exact (ih seen).cons r
    · rw [dedupByDeviceId, if_neg h]
      exact (ih (r.device.id :: seen)).cons₂ r

theorem dedupByDeviceId_not_seen (l : List DeviceKeywordRow) (seen : List Nat) :
    ∀ m ∈ dedupByDeviceId l seen, m.device.id ∉ seen := by
  induction l generalizing seen with
  | nil => intro m hm; cases hm
  | cons r t ih =>
    intro m hm
    by_cases h : r.device.id ∈ seen
    · rw [dedupByDeviceId, if_pos h] at hm
      exact ih seen m hm
    · rw [dedupByDeviceId, if_neg h] at hm
      rcases List.mem_cons.mp hm with rfl | hm
      · exact h
      · intro hc
        exact ih (r.device.id :: seen) m hm (List.mem_cons_of_mem _ hc)

theorem dedupByDeviceId_nodup (l : List DeviceKeywordRow) (seen : List Nat) :
    ((dedupByDeviceId l seen).map (fun m => m.device.id)).Nodup := by
  induction l generalizing seen with
  | nil => simp [dedupByDeviceId]
  | cons r t ih =>
    by_cases h : r.device.id ∈ seen
    · rw [dedupByDeviceId, if_pos h]
      exact ih seen
    · rw [dedupByDeviceId, if_neg h]
      rw [List.map_cons, List.nodup_cons]
      refine ⟨?_, ih (r.device.id :: seen)⟩
      intro hc
      rcases List.mem_map.mp hc with ⟨m, hm, he⟩
      exact dedupByDeviceId_not_seen t (r.device.id :: seen) m hm
        (by rw [he]; exact List.mem_cons_self _ _)

theorem dedupByDeviceId_cover (l : List DeviceKeywordRow) (seen : List Nat) (i : Nat) :
    (∃ m ∈ dedupByDeviceId l seen, m.device.id = i) ↔
      (∃ r ∈ l, r.device.id = i) ∧ i ∉ seen := by
  induction l generalizing seen with
  | nil => simp [dedupByDeviceId]
  | cons r t ih =>
    by_cases h : r.device.id ∈ seen
    · rw [dedupByDeviceId, if_pos h, ih]
      constructor
      · rintro ⟨⟨m, hm, rfl⟩, hn⟩
        exact ⟨⟨m, List.mem_cons_of_mem _ hm, rfl⟩, hn⟩
      · rintro ⟨⟨m, hm, rfl⟩, hn⟩
        rcases List.mem_cons.mp hm with rfl | hm
        · exact absurd h hn
        · exact ⟨⟨m, hm, rfl⟩, hn⟩
    · rw [dedupByDeviceId, if_neg h]
      constructor
      · rintro ⟨m, hm, rfl⟩
        rcases List.mem_cons.mp hm with rfl | hm
        · exact ⟨⟨m, List.mem_cons_self _ _, rfl⟩, h⟩
        · rcases (ih (r.device.id :: seen)).mp ⟨m, hm, rfl⟩ with ⟨⟨x, hx, hxe⟩, hn⟩
          exact ⟨⟨x, List.mem_cons_of_mem _ hx, hxe⟩,
            fun hc => hn (List.mem_cons_of_mem _ hc)⟩
      · rintro ⟨⟨x, hx, rfl⟩, hn⟩
        by_cases he : x.device.id = r.device.id
        · exact ⟨r, List.mem_cons_self _ _, he.symm⟩
        · rcases List.mem_cons.mp hx with rfl | hx
          · exact absurd rfl he
          · rcases (ih (r.device.id :: seen)).mpr
              ⟨⟨x, hx, rfl⟩, by
                intro hc
                rcases List.mem_cons.mp hc with hc | hc
                · exact he hc
                · exact hn hc⟩ with ⟨m, hm, hme⟩
            exact ⟨m, List.mem_cons_of_mem _ hm, hme⟩

theorem dedupByDeviceId_keeps_best (l : List DeviceKeywordRow) (seen : List Nat)
    (hs : l.Pairwise (fun a b => b.keyword.length ≤ a.keyword.length)) :
    ∀ m ∈ dedupByDeviceId l seen, ∀ r ∈ l, r.device.id = m.device.id →
      r.keyword.length ≤ m.keyword.length := by
  induction l generalizing seen with
  | nil => intro m hm; cases hm
  | cons x t ih =>
    rcases List.pairwise_cons.mp hs with ⟨hx, ht⟩
    intro m hm r hr hid
    by_cases h : x.device.id ∈ seen
    · rw [dedupByDeviceId, if_pos h] at hm
      rcases List.mem_cons.mp hr with rfl | hr
      · exact absurd (hid ▸ h) (dedupByDeviceId_not_seen t seen m hm)
      · exact ih seen ht m hm r hr hid
    · rw [dedupByDeviceId, if_neg h] at hm
      rcases List.mem_cons.mp hm with rfl | hm
      · rcases List.mem_cons.mp hr with rfl | hr
        · exact le_refl _
        · exact hx r hr
      · have hne : m.device.id ≠ x.device.id := by
          intro hc
          exact dedupByDeviceId_not_seen t (x.device.id :: seen) m hm
            (hc ▸ List.mem_cons_self _ _)
        rcases List.mem_cons.mp hr with rfl | hr
        · exact absurd hid.symm hne
        · exact ih (x.device.id :: seen) ht m hm r hr hid

/-- C4: `find_device_by_keyword` returns exactly the active devices owning a
keyword occurring in the text; the result is ordered by matched-keyword
length descending, has pairwise distinct device ids, and the kept row of each
device carries a longest matching keyword of that device. -/
theorem find_device_by_keyword_spec (catalog : List DeviceKeywordRow) (text : String) :
    (∀ i, (∃ m ∈ find_device_by_keyword catalog text, m.device.id = i) ↔
        ∃ r ∈ catalog, r.device.id = i ∧ r.device.is_active = true ∧
          strIn r.keyword text = true) ∧
    (find_device_by_keyword catalog text).Pairwise
      (fun a b => b.keyword.length ≤ a.keyword.length) ∧
    ((find_device_by_keyword catalog text).map (fun m => m.device.id)).Nodup ∧
    ∀ m ∈ find_device_by_keyword catalog text,
      m ∈ catalog ∧ m.device.is_active = true ∧ strIn m.keyword text = true ∧
      ∀ r ∈ catalog, r.device.id = m.device.id → r.device.is_active = true →
        strIn r.keyword text = true → r.keyword.length ≤ m.keyword.length := by
  have hmemS : ∀ r, r ∈ sortByLenDesc (matchingRows catalog text) ↔
      r ∈ catalog ∧ r.device.is_active = true ∧ strIn r.keyword text = true := by
    intro r
    rw [(sortByLenDesc_perm (matchingRows catalog text)).mem_iff, matchingRows,
      List.mem_filter, Bool.and_eq_true]
  refine ⟨?_, ?_, ?_, ?_⟩
  · intro i
    rw [find_device_by_keyword, dedupByDeviceId_cover]
    constructor
    · rintro ⟨⟨r, hr, rfl⟩, -⟩
      rcases (hmemS r).mp hr with ⟨h1, h2, h3⟩
      exact ⟨r, h1, rfl, h2, h3⟩
    · rintro ⟨r, hr, rfl, h2, h3⟩
      exact ⟨⟨r, (hmemS r).mpr ⟨hr, h2, h3⟩, rfl⟩, List.not_mem_nil _⟩
  · exact List.Pairwise.sublist (dedupByDeviceId_sublist _ [])
      (sortByLenDesc_pairwise (matchingRows catalog text))
  · exact dedupByDeviceId_nodup _ []
  · intro m hm
    have hmS : m ∈ sortByLenDesc (matchingRows catalog text) :=
      (dedupByDeviceId_sublist _ []).subset hm
    rcases (hmemS m).mp hmS with ⟨h1, h2, h3⟩
    refine ⟨h1, h2, h3, ?_⟩
    intro r hr hid hact hmatch
    exact dedupByDeviceId_keeps_best _ []
      (sortByLenDesc_pairwise (matchingRows catalog text)) m hm r
      ((hmemS r).mpr ⟨hr, hact, hmatch⟩) hid

/-- Demonstration device/keyword catalog: two active devices sharing the
generic keyword "light", one of them also owning the longer keyword
"bedroom light", plus an inactive device. -/
def demoDevCatalog : List DeviceKeywordRow :=
  [⟨⟨1, "Living Room Lamp", true⟩, "light", "generic"⟩,
   ⟨⟨2, "Bedroom Light", true⟩, "bedroom light", "room"⟩,
   ⟨⟨2, "Bedroom Light", true⟩, "light", "generic"⟩,
   ⟨⟨3, "Heater", false⟩, "light", "generic"⟩]

/-- C4 witness: coverage direction of the specification applied to the
demonstration catalog. -/
theorem find_device_by_keyword_spec_witness :
    ∃ r ∈ demoDevCatalog, r.device.id = 2 ∧ r.device.is_active = true ∧
      strIn r.keyword "turn on the bedroom light" = true :=
  ((find_device_by_keyword_spec demoDevCatalog "turn on the bedroom light").1 2).mp
    (by decide)

/- ### Parameter Synthesizer (C5, C6)

Embedding of `IntentDatabaseService.generate_action_parameters`.  The
declared parameters of the action are embedded as a list of `ParamInfo` in
table order; the caller context (`elder_info`) as an optional record whose
absent keys are `none`. -/

/-- One declared parameter of an action (`action_parameters` table). -/
structure ParamInfo where
  name : String
  type : String
  default : Option String
  required : Bool
deriving Repr, DecidableEq

/-- Caller context (`elder_info` dict); a missing key is `none`. -/
structure ElderInfo where
  family_contact_name : Option String
  family_phone : Option String
  location : Option String
deriving Repr, DecidableEq

/-- Fixed room-to-pin table of `generate_action_parameters` (`room_pin_map`,
mirroring `script.ino`). -/
def room_pin_map : List (String × String) :=
  [("living_room", "8"), ("bedroom", "9"), ("kitchen", "10"), ("bathroom", "11")]

/-- Context-stage override: the `elder_info` branch of the loop, which only
touches the parameters `contact_name`, `phone_number` and `location`. -/
def contextOverride (pname : String) (elder : Option ElderInfo) (v : Option String) :
    Option String :=
  match elder with
  | none => v
  | some e =>
    if pname = "contact_name" then
      match e.family_contact_name with
      | some c => some c
      | none => v
    else if pname = "phone_number" then
      match e.family_phone with
      | some c => some c
      | none => v
    else if pname = "location" then
      match e.location with
      | some c => some c
      | none => v
    else v

/-- Text extraction for `led_state`: scans for the contiguous phrases
"turn on"/"switch on" and "turn off"/"switch off" in the lowered message. -/
def ledStateFromText (message : String) (v : Option String) : Option String :=
  if strIn "turn on" message || strIn "switch on" message then some "ON"
  else if strIn "turn off" message || strIn "switch off" message then some "OFF"
  else v

/-- Text extraction for `room_name`: room synonym scan of the lowered message. -/
def roomFromText (message : String) (v : Option String) : Option String :=
  if strIn "living room" message || strIn "lounge" message then some "living_room"
  else if strIn "bedroom" message || strIn "sleeping room" message then some "bedroom"
  else if strIn "kitchen" message || strIn "cooking area" message then some "kitchen"
  else if strIn "bathroom" message || strIn "toilet" message || strIn "washroom" message then
    some "bathroom"
  else v

/-- Leftmost digit run followed by optional whitespace and "degree" or the
degree sign; embeds the regex search for a temperature in the lowered
message, returning the digit group. -/
def findDegrees : List Char → Option String
  | [] => none
  | c :: t =>
    if c.isDigit then
      if startsList "degree".data
            (((c :: t).dropWhile Char.isDigit).dropWhile Char.isWhitespace) ||
          startsList "°".data
            (((c :: t).dropWhile Char.isDigit).dropWhile Char.isWhitespace) then
        some (String.mk ((c :: t).takeWhile Char.isDigit))
      else findDegrees t
    else findDegrees t

/-- Python `parameters.get(name, dflt)` over the parameters synthesized so
far in the same call. -/
def lookupParam (acc : List (String × Option String)) (name : String)
    (dflt : Option String) : Option String :=
  match acc.find? (fun p => p.1 = name) with
  | some p => p.2
  | none => dflt

/-- Python `room_pin_map.get(room, dflt)`; `room` itself may be missing. -/
def pinFromRoom (room : Option String) (dflt : Option String) : Option String :=
  match room with
  | none => dflt
  | some r =>
    match room_pin_map.find? (fun p => p.1 = r) with
    | some p => some p.2
    | none => dflt

/-- Value synthesized for one declared parameter given the parameters
accumulated earlier in the same call: default value, then context override,
then the per-name text extraction (`arduino_pin` reads the `room_name`
synthesized earlier in this very call). -/
def paramValue (p : ParamInfo) (elder : Option ElderInfo) (message : String)
    (acc : List (String × Option String)) : Option String :=
  if p.name = "led_state" then
    ledStateFromText message (contextOverride p.name elder p.default)
  else if p.name = "room_name" then
    roomFromText message (contextOverride p.name elder p.default)
  else if p.name = "arduino_pin" then
    pinFromRoom (lookupParam acc "room_name" p.default) p.default
  else if p.name = "target_temperature" then
    match findDegrees (lowerChars message) with
    | some d => some d
    | none => contextOverride p.name elder p.default
  else contextOverride p.name elder p.default

/-- Embedding of `IntentDatabaseService.generate_action_parameters`, applied
to the action's declared parameter list in table order. -/
def generate_action_parameters (params : List ParamInfo) (elder : Option ElderInfo)
    (message : String) : List (String × Option String) :=
  params.foldl (fun acc p => acc ++ [(p.name, paramValue p elder message acc)]) []

/-- The declared parameter of the LED-control action relevant to C5:
`led_state` with stored default `OFF`. -/
def ledParam : ParamInfo := ⟨"led_state", "string", some "OFF", true⟩

/-- C5 counterexample: on the text "turn it on" the extraction does not fire
(the phrases scanned for are the contiguous "turn on"/"switch on"), so the
synthesized `led_state` is the stored default `OFF`, not `ON`. -/
theorem generate_led_counterexample :
    generate_action_parameters [ledParam] none "turn it on" = [("led_state", some "OFF")] ∧
    lookupParam (generate_action_parameters [ledParam] none "turn it on") "led_state" none
      ≠ some "ON" := by
  exact ⟨by decide, by decide⟩

/-- C5 amended: when the message contains the contiguous phrase "turn on"
(or "switch on"), the value extracted from text wins over the stored default
`OFF` and the synthesized `led_state` is `ON`. -/
theorem generate_led_amended (message : String)
    (h : strIn "turn on" message = true ∨ strIn "switch on" message = true) :
    generate_action_parameters [ledParam] none message = [("led_state", some "ON")] := by
  have h1 : generate_action_parameters [ledParam] none message =
      [("led_state", paramValue ledParam none message [])] := rfl
  have h2 : paramValue ledParam none message [] = ledStateFromText message (some "OFF") := by
    simp [paramValue, ledParam, contextOverride]
  rw [h1, h2]
  rcases h with h | h <;> simp [ledStateFromText, h]

/-- C5 witness for the amended claim, at the message "turn on the light". -/
theorem generate_led_amended_witness :
    generate_action_parameters [ledParam] none "turn on the light" =
      [("led_state", some "ON")] :=
  generate_led_amended "turn on the light" (Or.inl (by decide))

theorem contextOverride_other (pname : String) (elder : Option ElderInfo) (v : Option String)
    (h1 : pname ≠ "contact_name") (h2 : pname ≠ "phone_number") (h3 : pname ≠ "location") :
    contextOverride pname elder v = v := by
  cases elder with
  | none => rfl
  | some e => simp [contextOverride, h1, h2, h3]

/-- Declared parameters of the living-room light action
(`control_arduino_room_light` for `home/living_room/lights/cmd`), in table
order: `room_name` (default `living_room`) precedes `arduino_pin`
(default `8`). -/
def livingRoomLightParams : List ParamInfo :=
  [⟨"room_name", "string", some "living_room", true⟩,
   ⟨"arduino_pin", "integer", some "8", false⟩,
   ⟨"led_state", "string", some "ON", true⟩,
   ⟨"device_type", "string", some "room_light", false⟩]

/-- Declared parameters of the bathroom light action, in table order. -/
def bathroomLightParams : List ParamInfo :=
  [⟨"room_name", "string", some "bathroom", true⟩,
   ⟨"arduino_pin", "integer", some "11", false⟩,
   ⟨"led_state", "string", some "ON", true⟩,
   ⟨"device_type", "string", some "room_light", false⟩]

/-- C6: within one synthesis call, `arduino_pin` is derived from the
`room_name` resolved earlier in the same call.  For a message mentioning only
the bathroom (and no other room synonym), the synthesized pin is the
bathroom's configured index 11 — even for the living-room action, whose
stored defaults are `living_room`/pin 8. -/
theorem arduino_pin_follows_room (elder : Option ElderInfo) (message : String)
    (hb : strIn "bathroom" message = true ∨ strIn "toilet" message = true ∨
      strIn "washroom" message = true)
    (h1 : strIn "living room" message = false) (h2 : strIn "lounge" message = false)
    (h3 : strIn "bedroom" message = false) (h4 : strIn "sleeping room" message = false)
    (h5 : strIn "kitchen" message = false) (h6 : strIn "cooking area" message = false) :
    lookupParam (generate_action_parameters livingRoomLightParams elder message)
        "arduino_pin" none = some "11" ∧
    lookupParam (generate_action_parameters bathroomLightParams elder message)
        "arduino_pin" none = some "11" := by
  have hroom : ∀ v, roomFromText message v = some "bathroom" := by
    intro v
    rcases hb with h | h | h <;> simp [roomFromText, h1, h2, h3, h4, h5, h6, h]
  have c1 : ∀ v, contextOverride "room_name" elder v = v := fun v =>
    contextOverride_other _ _ _ (by decide) (by decide) (by decide)
  constructor <;>
    simp [generate_action_parameters, livingRoomLightParams, bathroomLightParams,
      List.foldl, paramValue, c1, hroom, lookupParam, pinFromRoom, room_pin_map,
      List.find?]

/-- C6 witness: the living-room action synthesized against a message that
mentions only the bathroom yields pin 11, not the stored default 8. -/
theorem arduino_pin_follows_room_witness :
    lookupParam (generate_action_parameters livingRoomLightParams none
        "please turn on the bathroom light") "arduino_pin" none = some "11" :=
  (arduino_pin_follows_room none "please turn on the bathroom light" (Or.inl (by decide))
    (by decide) (by decide) (by decide) (by decide) (by decide) (by decide)).1

/- ### Transport Client and Device State Cache (C1, C8, C9)

Embedding of `MQTTService`: the in-memory state cache, the inbound message
handler and `publish_message`.  Timestamps (`datetime.now().isoformat()`)
are passed in as an explicit `now` argument. -/

/-- Sensor half of the state cache (`current_state["sensors"]`). -/
structure Sensors where
  temperature : ℚ
  humidity : ℚ
  last_update : Option String
deriving Repr, DecidableEq

/-- Device half of the state cache (`current_state["devices"]`); the
dynamically added `<device>_status` keys live in an association list. -/
structure Devices where
  led : String
  thermostat_target : ℚ
  last_command : Option String
  statuses : List (String × String)
deriving Repr, DecidableEq

/-- The whole state cache (`self.current_state`). -/
structure HomeState where
  sensors : Sensors
  devices : Devices
deriving Repr, DecidableEq

/-- Initial cache installed by `MQTTService.__init__`. -/
def initialState : HomeState :=
  ⟨⟨22, 50, none⟩, ⟨"OFF", 22, none, []⟩⟩

/-- Python `str.strip()`. -/
def stripChars (l : List Char) : List Char :=
  ((l.dropWhile Char.isWhitespace).reverse.dropWhile Char.isWhitespace).reverse

/-- Numeric value of a digit run. -/
def digitsVal (l : List Char) : Nat :=
  l.foldl (fun a c => a * 10 + (c.toNat - 48)) 0

/-- Unsigned decimal numeral, digits with at most one point and at least one
digit: the fragment of Python `float()` grammar the engine feeds it. -/
def parseUnsigned (l : List Char) : Option ℚ :=
  match l.dropWhile Char.isDigit with
  | [] => if (l.takeWhile Char.isDigit).isEmpty then none else some (digitsVal l)
  | '.' :: fs =>
    if ((l.takeWhile Char.isDigit).isEmpty && fs.isEmpty) || !fs.all Char.isDigit then none
    else some (digitsVal (l.takeWhile Char.isDigit) + digitsVal fs / 10 ^ fs.length)
  | _ => none

/-- Optional sign in front of an unsigned numeral. -/
def parseSignedFloat : List Char → Option ℚ
  | '-' :: t => (parseUnsigned t).map (fun q => -q)
  | '+' :: t => parseUnsigned t
  | l => parseUnsigned l

/-- Python `float(s)` on the decimal numerals the engine handles: strip
whitespace, optional sign, digits with an optional point (`none` models a
raised ValueError). -/
def pyFloat (s : String) : Option ℚ :=
  parseSignedFloat (stripChars s.data)

/-- Signed all-digit integer literal. -/
def parseSignedInt : List Char → Option ℤ
  | '-' :: t => if !t.isEmpty && t.all Char.isDigit then some (-(digitsVal t : ℤ)) else none
  | '+' :: t => if !t.isEmpty && t.all Char.isDigit then some (digitsVal t) else none
  | l => if !l.isEmpty && l.all Char.isDigit then some (digitsVal l) else none

/-- Python `int(s)` (`none` models a raised ValueError). -/
def pyInt (s : String) : Option ℤ :=
  parseSignedInt (stripChars s.data)

/-- Python `str.split(sep)` for a one-character separator. -/
def splitChar (sep : Char) : List Char → List (List Char)
  | [] => [[]]
  | c :: t =>
    if c = sep then [] :: splitChar sep t
    else
      match splitChar sep t with
      | [] => [[c]]
      | h :: rt => (c :: h) :: rt

/-- Python `s.startswith(p)`. -/
def strStarts (p s : String) : Bool :=
  startsList p.data s.data

/-- Python `s.endswith(p)`. -/
def strEnds (p s : String) : Bool :=
  startsList p.data.reverse s.data.reverse

/-- Association-list update for the dynamic `<device>_status` keys. -/
def setStatus : List (String × String) → String → String → List (String × String)
  | [], k, v => [(k, v)]
  | (k0, v0) :: t, k, v =>
    if k0 = k then (k0, v) :: t else (k0, v0) :: setStatus t k v

/-- Try-block body of `MQTTService._process_arduino_message`; `none` models a
raised exception (unpacking a split of the wrong width, or a ValueError from
`float()`), which the method's except clause catches. -/
def processArduinoBody (topic message now : String) (st : HomeState) : Option HomeState :=
  if topic = "home/dht11" then
    if (',' ∈ message.data) then
      match splitChar ',' message.data with
      | [a, b] =>
        match pyFloat (String.mk a), pyFloat (String.mk b) with
        | some temp, some hum => some { st with sensors := ⟨temp, hum, some now⟩ }
        | _, _ => none
      | _ => none
    else some st
  else if topic = "home/led/cmd" then
    if message = "ON" ∨ message = "OFF" then
      some { st with devices :=
        { st.devices with led := message, last_command := some now } }
    else some st
  else if topic = "home/thermostat/set" then
    match pyInt message with
    | some temp =>
      some { st with devices :=
        { st.devices with thermostat_target := (temp : ℚ), last_command := some now } }
    | none => some st
  else if strStarts "home/" topic = true ∧ strEnds "/status" topic = true then
    match splitChar '/' topic.data with
    | _ :: device :: _ =>
      some { st with devices := { st.devices with
        statuses := setStatus st.devices.statuses (String.mk device ++ "_status") message } }
    | _ => none
  else some st

/-- Embedding of `_process_arduino_message` including its catch-all except
clause: a raised exception is logged and leaves the cache unchanged. -/
def process_arduino_message (topic message now : String) (st : HomeState) : HomeState :=
  match processArduinoBody topic message now st with
  | some st2 => st2
  | none => st

/-- Embedding of `MQTTService.on_message`: the cache effect is exactly that
of `_process_arduino_message` (registered callbacks do not touch the cache
and each is wrapped in its own try/except); the outer try/except means the
handler itself never raises. -/
def on_message (topic message now : String) (st : HomeState) : HomeState :=
  process_arduino_message topic message now st

/-- Outcome of a call to the underlying paho `client.publish`: a result code,
or an exception raised while publishing (e.g. a serialization failure). -/
inductive PublishOutcome where
  | rc (code : Nat)
  | raised

/-- The transport client handle (`self.client`): connection state plus the
behavior of the underlying publish call. -/
structure Client where
  connected : Bool
  publishResult : String → String → PublishOutcome

/-- Payload of a simulated thermostat command: Python
`float(message.split(":")[1])`, with `none` modeling the bare except. -/
def simTempPayload (message : String) : Option ℚ :=
  match splitChar ':' message.data with
  | _ :: seg :: _ => pyFloat (String.mk seg)
  | _ => none

/-- Offline branch of `publish_message`: simulate recognized Arduino
commands in the cache and report success for every topic. -/
def publishSimulated (topic message : String) (st : HomeState) : Bool × HomeState :=
  if topic = "home/led/cmd" ∧ (message = "ON" ∨ message = "OFF") then
    (true, { st with devices := { st.devices with led := message } })
  else if topic = "home/thermostat/cmd" ∧ strStarts "SET_TEMP:" message = true then
    match simTempPayload message with
    | some t =>
      (true, { st with devices := { st.devices with thermostat_target := t } })
    | none => (true, st)
  else (true, st)

/-- Embedding of `MQTTService.publish_message`: offline (absent or
disconnected client) falls into the simulation branch; online, the result
code of `client.publish` is compared against MQTT_ERR_SUCCESS = 0, and an
exception during publishing is swallowed and reported as success. -/
def publish_message (client : Option Client) (topic message : String) (st : HomeState) :
    Bool × HomeState :=
  match client with
  | none => publishSimulated topic message st
  | some c =>
    if c.connected = false then publishSimulated topic message st
    else
      match c.publishResult topic message with
      | .rc code => (code == 0, st)
      | .raised => (true, st)

theorem publishSimulated_fst (topic message : String) (st : HomeState) :
    (publishSimulated topic message st).1 = true := by
  unfold publishSimulated
  repeat' split
  all_goals rfl

/-- C1 counterexample: with no transport client, publishing the thermostat
command "25" on `home/thermostat/set` returns success but leaves the cache
untouched, while actual delivery (the inbound echo handler) would update the
thermostat target: the offline path does not update the cache as if the
command were delivered. -/
theorem publish_offline_counterexample :
    (publish_message none "home/thermostat/set" "25" initialState).1 = true ∧
    (publish_message none "home/thermostat/set" "25" initialState).2 = initialState ∧
    process_arduino_message "home/thermostat/set" "25" "t1" initialState ≠ initialState := by
  refine ⟨rfl, by decide, by decide⟩

/-- C1 amended: while the client is absent or disconnected, `publish` returns
success for every topic and payload, but updates the cache only for the two
recognized simulation commands — `home/led/cmd` with payload ON/OFF sets the
LED state, and `home/thermostat/cmd` with a parsable `SET_TEMP:` payload sets
the thermostat target; every other topic or payload leaves the cache
unchanged (the simulated acknowledgment is only logged, not returned). -/
theorem publish_offline_amended (client : Option Client) (topic message : String)
    (st : HomeState)
    (hdis : client = none ∨ ∃ c, client = some c ∧ c.connected = false) :
    (publish_message client topic message st).1 = true ∧
    (topic = "home/led/cmd" → (message = "ON" ∨ message = "OFF") →
      (publish_message client topic message st).2 =
        { st with devices := { st.devices with led := message } }) ∧
    (topic = "home/thermostat/cmd" → strStarts "SET_TEMP:" message = true →
      ∀ t, simTempPayload message = some t →
      (publish_message client topic message st).2 =
        { st with devices := { st.devices with thermostat_target := t } }) ∧
    (¬ (topic = "home/led/cmd" ∧ (message = "ON" ∨ message = "OFF")) →
      ¬ (topic = "home/thermostat/cmd" ∧ strStarts "SET_TEMP:" message = true ∧
          (simTempPayload message).isSome = true) →
      (publish_message client topic message st).2 = st) := by
  have hsim : publish_message client topic message st = publishSimulated topic message st := by
    rcases hdis with rfl | ⟨c, rfl, hc⟩
    · rfl
    · simp [publish_message, hc]
  rw [hsim]
  refine ⟨publishSimulated_fst topic message st, ?_, ?_, ?_⟩
  · rintro rfl hm
    rw [publishSimulated, if_pos ⟨rfl, hm⟩]
  · rintro rfl hss t hsp
    rw [publishSimulated, if_neg (fun hcontra => absurd hcontra.1 (by decide)),
      if_pos ⟨rfl, hss⟩, hsp]
  · intro hn1 hn2
    rw [publishSimulated, if_neg hn1]
    by_cases hc2 : topic = "home/thermostat/cmd" ∧ strStarts "SET_TEMP:" message = true
    · rw [if_pos hc2]
      cases hsp : simTempPayload message with
      | none => rfl
      | some t => exact absurd ⟨hc2.1, hc2.2, by rw [hsp]; rfl⟩ hn2
    · rw [if_neg hc2]

/-- C1 witness for the amended claim: offline LED command ON. -/
theorem publish_offline_amended_witness :
    (publish_message none "home/led/cmd" "ON" initialState).1 = true ∧
    (publish_message none "home/led/cmd" "ON" initialState).2 =
      { initialState with devices := { initialState.devices with led := "ON" } } := by
  have h := publish_offline_amended none "home/led/cmd" "ON" initialState (Or.inl rfl)
  exact ⟨h.1, h.2.1 rfl (Or.inl rfl)⟩

/-- C8: `publish` reports failure only when the live client's publish call
itself returned a non-success result code; an absent or disconnected client
always yields success (degraded mode), and even an exception raised while
publishing is swallowed and reported as success. -/
theorem publish_false_only_local (client : Option Client) (topic message : String)
    (st : HomeState) :
    ((publish_message client topic message st).1 = false →
      ∃ c code, client = some c ∧ c.connected = true ∧
        c.publishResult topic message = .rc code ∧ code ≠ 0) ∧
    ((client = none ∨ ∃ c, client = some c ∧ c.connected = false) →
      (publish_message client topic message st).1 = true) ∧
    (∀ c, client = some c → c.connected = true →
      c.publishResult topic message = .raised →
      (publish_message client topic message st).1 = true) := by
  refine ⟨?_, ?_, ?_⟩
  · intro h
    cases client with
    | none =>
      rw [publish_message, publishSimulated_fst] at h
      cases h
    | some c =>
      cases hc : c.connected with
      | false =>
        simp only [publish_message, hc, if_pos] at h
        rw [publishSimulated_fst] at h
        cases h
      | true =>
        simp only [publish_message, hc] at h
        rw [if_neg (by simp)] at h
        cases hr : c.publishResult topic message with
        | rc code =>
          rw [hr] at h
          refine ⟨c, code, rfl, hc, hr, ?_⟩
          intro hz
          subst hz
          cases h
        | raised =>
          rw [hr] at h
          cases h
  · rintro (rfl | ⟨c, rfl, hc⟩)
    · rw [publish_message, publishSimulated_fst]
    · simp only [publish_message, hc, if_pos]
      rw [publishSimulated_fst]
  · rintro c rfl hc hr
    simp only [publish_message, hc]
    rw [if_neg (by simp), hr]

/-- C8 witness: a connected client whose publish call reports result code 2
is the only way to observe failure. -/
theorem publish_false_only_local_witness :
    (publish_message (some ⟨true, fun _ _ => PublishOutcome.rc 2⟩)
        "home/led/cmd" "ON" initialState).1 = false ∧
    ∃ c code, (some ⟨true, fun _ _ => PublishOutcome.rc 2⟩ : Option Client) = some c ∧
      c.connected = true ∧ c.publishResult "home/led/cmd" "ON" = .rc code ∧ code ≠ 0 :=
  ⟨rfl, (publish_false_only_local (some ⟨true, fun _ _ => PublishOutcome.rc 2⟩)
    "home/led/cmd" "ON" initialState).1 rfl⟩

/-- Malformed DHT11 payload: wrong field count when split on commas, or a
field rejected by Python `float()`. -/
def dht11Malformed (message : String) : Bool :=
  match splitChar ',' message.data with
  | [a, b] => (pyFloat (String.mk a)).isNone || (pyFloat (String.mk b)).isNone
  | _ => true

/-- C9: a malformed sensor payload never escapes the inbound handler and
leaves the cache entries unchanged: both `on_message` and
`_process_arduino_message` (total functions, their except clauses model the
catch-and-log) return the state untouched. -/
theorem malformed_dht11_dropped (message now : String) (st : HomeState)
    (h : dht11Malformed message = true) :
    on_message "home/dht11" message now st = st ∧
    process_arduino_message "home/dht11" message now st = st := by
  have key : process_arduino_message "home/dht11" message now st = st := by
    rw [process_arduino_message]
    by_cases hc : (',' ∈ message.data)
    · rw [dht11Malformed] at h
      rcases hs : splitChar ',' message.data with _ | ⟨a, t⟩
      · simp [processArduinoBody, hc, hs]
      · rcases t with _ | ⟨b, t2⟩
        · simp [processArduinoBody, hc, hs]
        · rcases t2 with _ | ⟨c2, rest⟩
          · rw [hs] at h
            rcases hfa : pyFloat (String.mk a) with _ | qa
            · simp [processArduinoBody, hc, hs, hfa]
            · rcases hfb : pyFloat (String.mk b) with _ | qb
              · simp [processArduinoBody, hc, hs, hfa, hfb]
              · simp [hfa, hfb] at h
          · simp [processArduinoBody, hc, hs]
    · simp [processArduinoBody, hc]
  exact ⟨key, key⟩

/-- C9 witness: the payload "20,abc" (non-numeric humidity field) is dropped
with the cache unchanged. -/
theorem malformed_dht11_dropped_witness :
    on_message "home/dht11" "20,abc" "t0" initialState = initialState :=
  (malformed_dht11_dropped "20,abc" "t0" initialState (by decide)).1

/- ### Copy semantics of the state getter (C7)

`MQTTService.get_current_state` returns `self.current_state.copy()`.  To
express Python reference semantics, the nested dicts (`sensors`, `devices`)
are objects on an explicit heap addressed by index, and the top-level dict is
a list of key-to-address bindings.  `dict.copy()` rebuilds the top-level
spine but copies the addresses, not the nested objects. -/

/-- Heap of nested dict objects; an address is an index into the list. -/
abbrev Heap := List (List (String × String))

/-- A top-level dict: keys bound to references of nested dict objects. -/
abbrev TopDict := List (String × Nat)

/-- Dereference a nested dict object. -/
def readHeap (h : Heap) (a : Nat) : List (String × String) :=
  h.getD a []

/-- Mutate the nested dict object stored at an address. -/
def writeHeap (h : Heap) (a : Nat) (d : List (String × String)) : Heap :=
  h.set a d

/-- Python `dict.copy()`: a fresh top-level spine holding the same
key-to-reference bindings (nested objects are not copied). -/
def dictCopy : TopDict → TopDict
  | [] => []
  | kv :: t => kv :: dictCopy t

/-- Embedding of `MQTTService.get_current_state`, i.e.
`self.current_state.copy()`. -/
def get_current_state (cache : TopDict) : TopDict :=
  dictCopy cache

/-- Observable value of a top-level dict: each key with the contents of the
nested dict it references. -/
def materialize (h : Heap) (d : TopDict) : List (String × List (String × String)) :=
  d.map (fun kv => (kv.1, readHeap h kv.2))

/-- Concrete heap holding the sensors and devices dicts of the initial
cache. -/
def demoHeap : Heap :=
  [[("temperature", "22.0"), ("humidity", "50.0")],
   [("led", "OFF"), ("thermostat_target", "22")]]

/-- The cache's top-level dict: `sensors` and `devices` bound to the two
heap objects. -/
def demoCache : TopDict :=
  [("sensors", 0), ("devices", 1)]

/-- C7 counterexample: the snapshot returned by `get_current_state` hands out
the cache's own `sensors` reference (address 0); overwriting the temperature
through that reference changes the cache's observable state, so the snapshot
is not a deep copy. -/
theorem get_current_state_counterexample :
    List.lookup "sensors" (get_current_state demoCache) = some 0 ∧
    materialize (writeHeap demoHeap 0 [("temperature", "99.0"), ("humidity", "50.0")])
        demoCache ≠ materialize demoHeap demoCache := by
  exact ⟨rfl, by decide⟩

/-- C7 amended: `get_current_state` returns a shallow copy — a fresh
top-level spine whose nested references are literally those of the cache, so
a write through a nested reference obtained from the snapshot is a write to
the cache's own nested data; only the top-level spine is new. -/
theorem get_current_state_shallow (cache : TopDict) (h : Heap) :
    (∀ k, List.lookup k (get_current_state cache) = List.lookup k cache) ∧
    (∀ a d, materialize (writeHeap h a d) (get_current_state cache) =
      materialize (writeHeap h a d) cache) ∧
    materialize h (get_current_state cache) = materialize h cache := by
  have he : dictCopy cache = cache := by
    induction cache with
    | nil => rfl
    | cons kv t ih => rw [dictCopy, ih]
  rw [get_current_state, he]
  exact ⟨fun k => rfl, fun a d => rfl, rfl⟩
